import Mathlib

/-
Verification of the MIR type representation and interning layer
(`crates/mir/src/ir/types.rs`).

The source file declares the type value model: a closed tagged union `Type`
whose composite variants reference other types only through interned
`TypeId` handles, with equality and hashing derived structurally
(`#[derive(PartialEq, Eq, Hash)]`).  The interner itself lives outside the
visible source (it is provided by `impl_intern_key!` from `fe_common`), so
it is modelled here from the specification's description of
`intern` / `lookup` / `reserve` / `finalize`.
-/

set_option maxHeartbeats 1000000

namespace Mir

/-- `SmolStr` from the `smol_str` crate: an immutable string compared by
content.  Embedded as `String`. -/
abbrev SmolStr := String

/-- `Span` from `fe_common` (outside the visible source): a source span,
consumed here as an external identifier compared by derived equality. -/
abbrev Span := Nat

/-- `analyzer_items::ModuleId` (outside the visible source): the analyzer's
module identifier, consumed here as an external identifier compared by
derived equality. -/
abbrev ModuleId := Nat

/-- `pub struct TypeId(u32)`: an interned handle for a type.  The `u32`
payload is an index issued by the interner; no arithmetic is performed on
it, so it is embedded as `Nat`. -/
structure TypeId where
  idx : Nat
deriving DecidableEq, Repr

/-- `ArrayDef`: a static array type definition
(`pub elem_ty: TypeId, pub len: usize`). -/
structure ArrayDef where
  elem_ty : TypeId
  len : Nat
deriving DecidableEq, Repr

/-- `TupleDef`: a tuple type definition (`pub items: Vec<TypeId>`). -/
structure TupleDef where
  items : List TypeId
deriving DecidableEq, Repr

/-- `StructDef`: a user defined struct type definition
(`name: SmolStr, fields: Vec<(SmolStr, TypeId)>, span: Span,
module_id: ModuleId`).  Also the payload of the `Contract` variant. -/
structure StructDef where
  name : SmolStr
  fields : List (SmolStr × TypeId)
  span : Span
  module_id : ModuleId
deriving DecidableEq, Repr

/-- `EventDef`: a user defined event type definition
(`name: SmolStr, fields: Vec<(SmolStr, TypeId, bool)>, span: Span,
module_id: ModuleId`); the `bool` marks an indexed field. -/
structure EventDef where
  name : SmolStr
  fields : List (SmolStr × TypeId × Bool)
  span : Span
  module_id : ModuleId
deriving DecidableEq, Repr

/-- `MapDef`: a map type definition
(`pub key_ty: TypeId, pub value_ty: TypeId`). -/
structure MapDef where
  key_ty : TypeId
  value_ty : TypeId
deriving DecidableEq, Repr

/-- The Rust `enum Type` (renamed `Ty` since `Type` is reserved in Lean):
a closed tagged union with `#[derive(PartialEq, Eq, Hash)]`, so equality is
derived field-by-field across variant payloads. -/
inductive Ty where
  | I8
  | I16
  | I32
  | I64
  | I128
  | I256
  | U8
  | U16
  | U32
  | U64
  | U128
  | U256
  | Bool
  | Address
  | Unit
  | Array (d : ArrayDef)
  | Tuple (d : TupleDef)
  | Struct (d : StructDef)
  | Event (d : EventDef)
  | Contract (d : StructDef)
  | Map (d : MapDef)
deriving DecidableEq, Repr

/-- Modelled from the spec: the deduplicating type interner of §4.2 (the
`impl_intern_key!` implementation is outside the visible source).  Entries
are stored in allocation order; a slot holds `none` while it is reserved
but not yet finalized (§4.2 two-phase construction), and `some v` once it
holds the interned value `v`.  A `TypeId` is an index into this store. -/
structure Interner where
  entries : List (Option Ty)
deriving DecidableEq, Repr

/-- Modelled from the spec: scan the store for an entry holding exactly the
value `v` (structural equality per §3 invariant 2), returning the first
matching index. -/
def findEntry : List (Option Ty) → Ty → Option Nat
  | [], _ => none
  | e :: rest, v =>
    if e = some v then some 0 else Option.map Nat.succ (findEntry rest v)

/-- Modelled from the spec: `lookup(id) -> Type` (§4.2), total on handles
previously issued by this interner; embedded fallibly, returning `none` for
a never-issued handle or a reserved-but-unfinalized slot. -/
def Interner.lookup (s : Interner) (id : TypeId) : Option Ty :=
  match s.entries[id.idx]? with
  | some (some v) => some v
  | _ => none

/-- Modelled from the spec: `intern(value) -> TypeId` (§4.2): compute
structural equality against existing entries; if a match exists return its
handle, otherwise allocate a new handle, store the value, and return it. -/
def Interner.intern (s : Interner) (v : Ty) : TypeId × Interner :=
  match findEntry s.entries v with
  | some i => (⟨i⟩, s)
  | none => (⟨s.entries.length⟩, ⟨s.entries ++ [some v]⟩)

/-- Modelled from the spec: `reserve() -> TypeId` (§4.2): allocate a fresh
placeholder handle with no value yet. -/
def Interner.reserve (s : Interner) : TypeId × Interner :=
  (⟨s.entries.length⟩, ⟨s.entries ++ [none]⟩)

/-- Modelled from the spec: `finalize(id, value)` (§4.2): fill a reserved
slot with its completed value.  Finalizing a handle that was never reserved,
or was already finalized, is an internal-invariant violation, embedded as
`none`. -/
def Interner.finalize (s : Interner) (id : TypeId) (v : Ty) : Option Interner :=
  match s.entries[id.idx]? with
  | some none => some ⟨s.entries.set id.idx (some v)⟩
  | _ => none

/-- Intern `u`, then intern `v` in the resulting state, returning the two
handles.  This is the observable used by the two-interning scenarios of §8. -/
def internBoth (s : Interner) (u v : Ty) : TypeId × TypeId :=
  ((s.intern u).1, ((s.intern u).2.intern v).1)

/- ### Basic lemmas about the store scan -/

theorem findEntry_eq_some {l : List (Option Ty)} {v : Ty} {i : Nat}
    (h : findEntry l v = some i) : l[i]? = some (some v) := by
  induction l generalizing i with
  | nil => simp [findEntry] at h
  | cons e rest ih =>
    rw [findEntry] at h
    split at h
    · next he => cases h; simpa using he
    · next he =>
      cases hf : findEntry rest v with
      | none => rw [hf] at h; simp at h
      | some j =>
        rw [hf] at h
        simp only [Option.map_some'] at h
        cases h
        simpa using ih hf

theorem findEntry_eq_none {l : List (Option Ty)} {v : Ty}
    (h : findEntry l v = none) : ∀ i : Nat, l[i]? ≠ some (some v) := by
  induction l with
  | nil => intro i; simp
  | cons e rest ih =>
    rw [findEntry] at h
    split at h
    · exact absurd h (by simp)
    · next he =>
      have hr : findEntry rest v = none := by
        cases hf : findEntry rest v with
        | none => rfl
        | some j => rw [hf] at h; simp at h
      intro i
      cases i with
      | zero => simpa using he
      | succ j => simpa using ih hr j

theorem findEntry_append_self {l : List (Option Ty)} {v : Ty}
    (h : findEntry l v = none) :
    findEntry (l ++ [some v]) v = some l.length := by
  induction l with
  | nil => simp [findEntry]
  | cons e rest ih =>
    rw [findEntry] at h
    split at h
    · exact absurd h (by simp)
    · next he =>
      have hr : findEntry rest v = none := by
        cases hf : findEntry rest v with
        | none => rfl
        | some j => rw [hf] at h; simp at h
      simp [findEntry, he, ih hr]

/- ### Core interner lemmas -/

theorem lt_length_of_getElem_eq_some {α : Type} {l : List α} {i : Nat} {a : α}
    (h : l[i]? = some a) : i < l.length := by
  by_contra hlt
  rw [List.getElem?_eq_none (by omega)] at h
  exact absurd h (by simp)

theorem lookup_eq_some_iff {s : Interner} {i : TypeId} {u : Ty} :
    s.lookup i = some u ↔ s.entries[i.idx]? = some (some u) := by
  constructor
  · intro h
    unfold Interner.lookup at h
    split at h
    · next hv => cases h; exact hv
    · exact absurd h (by simp)
  · intro h
    unfold Interner.lookup
    rw [h]

theorem entries_mono_intern {s : Interner} (v : Ty) {i : Nat} {e : Option Ty}
    (h : s.entries[i]? = some e) : ((s.intern v).2).entries[i]? = some e := by
  cases hf : findEntry s.entries v with
  | some j => simp only [Interner.intern, hf]; exact h
  | none =>
    simp only [Interner.intern, hf]
    rw [List.getElem?_append_left (lt_length_of_getElem_eq_some h)]
    exact h

theorem lookup_mono_intern {s : Interner} (v : Ty) {i : TypeId} {u : Ty}
    (h : s.lookup i = some u) : (s.intern v).2.lookup i = some u := by
  rw [lookup_eq_some_iff] at h ⊢
  exact entries_mono_intern v h

theorem lookup_intern_self (s : Interner) (v : Ty) :
    (s.intern v).2.lookup (s.intern v).1 = some v := by
  rw [lookup_eq_some_iff]
  cases hf : findEntry s.entries v with
  | some i =>
    simp only [Interner.intern, hf]
    exact findEntry_eq_some hf
  | none =>
    simp only [Interner.intern, hf]
    exact List.getElem?_concat_length _ _

theorem intern_intern (s : Interner) (v : Ty) :
    (s.intern v).2.intern v = s.intern v := by
  cases hf : findEntry s.entries v with
  | some i => simp only [Interner.intern, hf]
  | none =>
    have h2 : findEntry (s.entries ++ [some v]) v = some s.entries.length :=
      findEntry_append_self hf
    simp only [Interner.intern, hf, h2]

theorem internBoth_self (s : Interner) (v : Ty) :
    (internBoth s v v).1 = (internBoth s v v).2 := by
  unfold internBoth
  rw [intern_intern]

theorem internBoth_ne {s : Interner} {u v : Ty} (huv : u ≠ v) :
    (internBoth s u v).1 ≠ (internBoth s u v).2 := by
  intro he
  have h1 : (s.intern u).2.lookup (s.intern u).1 = some u := lookup_intern_self s u
  have h2 : ((s.intern u).2.intern v).2.lookup ((s.intern u).2.intern v).1 = some v :=
    lookup_intern_self (s.intern u).2 v
  have h3 : ((s.intern u).2.intern v).2.lookup (s.intern u).1 = some u :=
    lookup_mono_intern v h1
  unfold internBoth at he
  rw [he, h2] at h3
  exact huv (Option.some.inj h3).symm

theorem lookup_reserve {s : Interner} {i : TypeId} {u : Ty}
    (h : s.lookup i = some u) : (s.reserve).2.lookup i = some u := by
  rw [lookup_eq_some_iff] at h ⊢
  simp only [Interner.reserve]
  rw [List.getElem?_append_left (lt_length_of_getElem_eq_some h)]
  exact h

theorem reserve_entry (s : Interner) :
    (s.reserve).2.entries[(s.reserve).1.idx]? = some none := by
  simp only [Interner.reserve]
  exact List.getElem?_concat_length _ _

theorem finalize_eq_of_entry {s : Interner} {id : TypeId} (v : Ty)
    (h : s.entries[id.idx]? = some none) :
    s.finalize id v = some ⟨s.entries.set id.idx (some v)⟩ := by
  unfold Interner.finalize
  rw [h]

theorem lookup_finalize_self {s : Interner} {id : TypeId} {v : Ty} {t : Interner}
    (h : s.finalize id v = some t) : t.lookup id = some v := by
  unfold Interner.finalize at h
  split at h
  · next hid =>
    cases h
    rw [lookup_eq_some_iff]
    simp [List.getElem?_set, lt_length_of_getElem_eq_some hid]
  · exact absurd h (by simp)

theorem lookup_finalize_other {s : Interner} {id : TypeId} {v : Ty} {t : Interner}
    (h : s.finalize id v = some t) {j : TypeId} {u : Ty}
    (hj : s.lookup j = some u) : t.lookup j = some u := by
  unfold Interner.finalize at h
  split at h
  · next hid =>
    cases h
    rw [lookup_eq_some_iff] at hj ⊢
    have hne : id.idx ≠ j.idx := by
      intro hEq
      rw [hEq] at hid
      rw [hid] at hj
      simp at hj
    rw [List.getElem?_set, if_neg hne]
    exact hj
  · exact absurd h (by simp)

/- ### Derived hashing -/

/-- Hash of a `TypeId`: the handle's index, never the pointed-to value. -/
def hashTypeId (id : TypeId) : Nat := id.idx

def hashBool (b : Bool) : Nat := if b then 1 else 0

def hashListWith {α : Type} (f : α → Nat) : List α → Nat
  | [] => 7
  | x :: rest => f x + 31 * hashListWith f rest

def hashStr (s : String) : Nat := hashListWith Char.toNat s.toList

/-- The structural hash corresponding to `#[derive(Hash)]` on `Type`: a
variant discriminant combined with the hashes of exactly the fields that
participate in derived equality (nominal metadata included; nested
`TypeId`s hashed by index, never by dereferencing). -/
def hashTy : Ty → Nat
  | .I8 => 0
  | .I16 => 1
  | .I32 => 2
  | .I64 => 3
  | .I128 => 4
  | .I256 => 5
  | .U8 => 6
  | .U16 => 7
  | .U32 => 8
  | .U64 => 9
  | .U128 => 10
  | .U256 => 11
  | .Bool => 12
  | .Address => 13
  | .Unit => 14
  | .Array d => 15 + 31 * (hashTypeId d.elem_ty + 31 * d.len)
  | .Tuple d => 16 + 31 * hashListWith hashTypeId d.items
  | .Struct d =>
    17 + 31 * (hashStr d.name
      + 31 * (hashListWith (fun f => hashStr f.1 + 31 * hashTypeId f.2) d.fields
      + 31 * (d.span + 31 * d.module_id)))
  | .Event d =>
    18 + 31 * (hashStr d.name
      + 31 * (hashListWith
          (fun f => hashStr f.1 + 31 * (hashTypeId f.2.1 + 31 * hashBool f.2.2))
          d.fields
      + 31 * (d.span + 31 * d.module_id)))
  | .Contract d =>
    19 + 31 * (hashStr d.name
      + 31 * (hashListWith (fun f => hashStr f.1 + 31 * hashTypeId f.2) d.fields
      + 31 * (d.span + 31 * d.module_id)))
  | .Map d => 20 + 31 * (hashTypeId d.key_ty + 31 * hashTypeId d.value_ty)

/- ### Equality characterizations of the derived `PartialEq` -/

theorem struct_eq_iff (d1 d2 : StructDef) :
    Ty.Struct d1 = Ty.Struct d2 ↔
      d1.name = d2.name ∧ d1.fields = d2.fields ∧ d1.span = d2.span ∧
        d1.module_id = d2.module_id := by
  cases d1
  cases d2
  simp only [Ty.Struct.injEq, StructDef.mk.injEq]

theorem event_eq_iff (e1 e2 : EventDef) :
    Ty.Event e1 = Ty.Event e2 ↔
      e1.name = e2.name ∧ e1.fields = e2.fields ∧ e1.span = e2.span ∧
        e1.module_id = e2.module_id := by
  cases e1
  cases e2
  simp only [Ty.Event.injEq, EventDef.mk.injEq]

theorem array_eq_iff (a b : ArrayDef) :
    Ty.Array a = Ty.Array b ↔ a.elem_ty = b.elem_ty ∧ a.len = b.len := by
  cases a
  cases b
  simp only [Ty.Array.injEq, ArrayDef.mk.injEq]

theorem map_eq_iff (a b : MapDef) :
    Ty.Map a = Ty.Map b ↔ a.key_ty = b.key_ty ∧ a.value_ty = b.value_ty := by
  cases a
  cases b
  simp only [Ty.Map.injEq, MapDef.mk.injEq]

/- ### Claim theorems -/

/-- C1: Equality of the nominal variants (Struct, Event, Contract) is
computed field-by-field including the nominal metadata `name`, `module_id`
and `span`; two such values with identical names and identical field lists
but different declaring span or module_id are structurally unequal and
intern to two different TypeIds, while interning the same value twice with
identical `(name, fields, span, module_id)` yields one handle. -/
theorem struct_nominal_identity :
    (∀ d1 d2 : StructDef, Ty.Struct d1 = Ty.Struct d2 ↔
      d1.name = d2.name ∧ d1.fields = d2.fields ∧ d1.span = d2.span ∧
        d1.module_id = d2.module_id)
    ∧ (∀ e1 e2 : EventDef, Ty.Event e1 = Ty.Event e2 ↔
      e1.name = e2.name ∧ e1.fields = e2.fields ∧ e1.span = e2.span ∧
        e1.module_id = e2.module_id)
    ∧ (∀ d1 d2 : StructDef, d1.name = d2.name → d1.fields = d2.fields →
        (d1.span ≠ d2.span ∨ d1.module_id ≠ d2.module_id) →
        Ty.Struct d1 ≠ Ty.Struct d2 ∧ Ty.Contract d1 ≠ Ty.Contract d2 ∧
        ∀ s : Interner,
          (internBoth s (Ty.Struct d1) (Ty.Struct d2)).1 ≠
              (internBoth s (Ty.Struct d1) (Ty.Struct d2)).2 ∧
          (internBoth s (Ty.Contract d1) (Ty.Contract d2)).1 ≠
              (internBoth s (Ty.Contract d1) (Ty.Contract d2)).2)
    ∧ (∀ e1 e2 : EventDef, e1.name = e2.name → e1.fields = e2.fields →
        (e1.span ≠ e2.span ∨ e1.module_id ≠ e2.module_id) →
        Ty.Event e1 ≠ Ty.Event e2 ∧
        ∀ s : Interner,
          (internBoth s (Ty.Event e1) (Ty.Event e2)).1 ≠
            (internBoth s (Ty.Event e1) (Ty.Event e2)).2)
    ∧ (∀ (s : Interner) (v : Ty),
        (internBoth s v v).1 = (internBoth s v v).2) := by
  refine ⟨struct_eq_iff, event_eq_iff, ?_, ?_, internBoth_self⟩
  · intro d1 d2 hn hf hsm
    have hdd : d1 ≠ d2 := by
      intro h
      subst h
      rcases hsm with h | h <;> exact h rfl
    exact ⟨fun h => hdd (Ty.Struct.inj h), fun h => hdd (Ty.Contract.inj h),
      fun s => ⟨internBoth_ne (fun h => hdd (Ty.Struct.inj h)),
        internBoth_ne (fun h => hdd (Ty.Contract.inj h))⟩⟩
  · intro e1 e2 hn hf hsm
    have hdd : e1 ≠ e2 := by
      intro h
      subst h
      rcases hsm with h | h <;> exact h rfl
    exact ⟨fun h => hdd (Ty.Event.inj h),
      fun s => internBoth_ne (fun h => hdd (Ty.Event.inj h))⟩

/-- C1 witness: the `Point {x: I32, y: I32}` struct declared at two
different spans gives two structurally unequal values interning to two
distinct handles in the empty interner. -/
theorem struct_nominal_identity_witness :
    Ty.Struct ⟨"Point", [("x", ⟨0⟩), ("y", ⟨1⟩)], 0, 0⟩ ≠
        Ty.Struct ⟨"Point", [("x", ⟨0⟩), ("y", ⟨1⟩)], 1, 0⟩ ∧
      (internBoth ⟨[]⟩ (Ty.Struct ⟨"Point", [("x", ⟨0⟩), ("y", ⟨1⟩)], 0, 0⟩)
          (Ty.Struct ⟨"Point", [("x", ⟨0⟩), ("y", ⟨1⟩)], 1, 0⟩)).1 ≠
        (internBoth ⟨[]⟩ (Ty.Struct ⟨"Point", [("x", ⟨0⟩), ("y", ⟨1⟩)], 0, 0⟩)
          (Ty.Struct ⟨"Point", [("x", ⟨0⟩), ("y", ⟨1⟩)], 1, 0⟩)).2 := by
  have h := struct_nominal_identity.2.2.1
    ⟨"Point", [("x", ⟨0⟩), ("y", ⟨1⟩)], 0, 0⟩
    ⟨"Point", [("x", ⟨0⟩), ("y", ⟨1⟩)], 1, 0⟩
    rfl rfl (Or.inl (by decide))
  exact ⟨h.1, (h.2.2 ⟨[]⟩).1⟩

/-- C2: interning is idempotent: re-interning a value already stored
returns the existing handle and leaves the store unchanged, so no duplicate
entries accumulate for equal inputs. -/
theorem intern_idempotent (s : Interner) (v : Ty) :
    (s.intern v).2.intern v = s.intern v ∧
      ((s.intern v).2.intern v).2.entries.length =
        (s.intern v).2.entries.length := by
  refine ⟨intern_intern s v, ?_⟩
  rw [intern_intern s v]

/-- C3: a Struct and a Contract built from the same `StructDef` payload are
unequal Type values, distinguished purely by variant tag, and intern to
distinct TypeIds. -/
theorem contract_struct_tag_distinct (d : StructDef) (s : Interner) :
    Ty.Struct d ≠ Ty.Contract d ∧
      (internBoth s (Ty.Struct d) (Ty.Contract d)).1 ≠
        (internBoth s (Ty.Struct d) (Ty.Contract d)).2 :=
  ⟨fun h => Ty.noConfusion h, internBoth_ne (fun h => Ty.noConfusion h)⟩

/-- C4: composite equality compares nested TypeIds by handle identity only:
two Array values over distinct handles are unequal and intern to distinct
TypeIds even when both handles resolve to structurally equal types, while
equality of a nominal Struct value traverses its nominal metadata. -/
theorem nested_handle_identity (s : Interner) (i j : TypeId) (u w : Ty)
    (n : Nat) (hij : i ≠ j) (_hi : s.lookup i = some u)
    (_hj : s.lookup j = some w) (_huw : u = w) :
    (Ty.Array ⟨i, n⟩ ≠ Ty.Array ⟨j, n⟩)
    ∧ ((internBoth s (Ty.Array ⟨i, n⟩) (Ty.Array ⟨j, n⟩)).1 ≠
        (internBoth s (Ty.Array ⟨i, n⟩) (Ty.Array ⟨j, n⟩)).2)
    ∧ (∀ a b : ArrayDef,
        Ty.Array a = Ty.Array b ↔ a.elem_ty = b.elem_ty ∧ a.len = b.len)
    ∧ (∀ d1 d2 : StructDef, Ty.Struct d1 = Ty.Struct d2 ↔
        d1.name = d2.name ∧ d1.fields = d2.fields ∧ d1.span = d2.span ∧
          d1.module_id = d2.module_id) := by
  have hne : Ty.Array ⟨i, n⟩ ≠ Ty.Array ⟨j, n⟩ := by
    intro h
    exact hij (congrArg ArrayDef.elem_ty (Ty.Array.inj h))
  exact ⟨hne, internBoth_ne hne, array_eq_iff, struct_eq_iff⟩

/-- C4 witness: a store holding `I32` in two separate slots (buildable via
reserve/finalize); the two handles resolve to equal values, yet Arrays over
them stay distinct. -/
theorem nested_handle_identity_witness :
    Ty.Array ⟨⟨0⟩, 1⟩ ≠ Ty.Array ⟨⟨1⟩, 1⟩ ∧
      (internBoth ⟨[some Ty.I32, some Ty.I32]⟩ (Ty.Array ⟨⟨0⟩, 1⟩)
          (Ty.Array ⟨⟨1⟩, 1⟩)).1 ≠
        (internBoth ⟨[some Ty.I32, some Ty.I32]⟩ (Ty.Array ⟨⟨0⟩, 1⟩)
          (Ty.Array ⟨⟨1⟩, 1⟩)).2 := by
  have h := nested_handle_identity ⟨[some Ty.I32, some Ty.I32]⟩ ⟨0⟩ ⟨1⟩
    Ty.I32 Ty.I32 1 (by decide) rfl rfl rfl
  exact ⟨h.1, h.2.1⟩

/-- C5: round-trip: a handle returned by `intern(v)` looks up to `v`; and a
handle's resolved value, once assigned, is preserved by every further
`intern`, `reserve`, and successful `finalize`. -/
theorem intern_roundtrip_immutable (s : Interner) (v : Ty) (i : TypeId)
    (u : Ty) (h : s.lookup i = some u) :
    (s.intern v).2.lookup (s.intern v).1 = some v
    ∧ (s.intern v).2.lookup i = some u
    ∧ (s.reserve).2.lookup i = some u
    ∧ (∀ (id : TypeId) (w : Ty) (t : Interner),
        s.finalize id w = some t → t.lookup i = some u) :=
  ⟨lookup_intern_self s v, lookup_mono_intern v h, lookup_reserve h,
    fun _ _ _ ht => lookup_finalize_other ht h⟩

/-- C5 witness: in a store holding `Bool` at handle 0, interning `I8`
round-trips and leaves handle 0 resolving to `Bool`. -/
theorem intern_roundtrip_immutable_witness :
    (Interner.mk [some Ty.Bool]).lookup ⟨0⟩ = some Ty.Bool ∧
      ((Interner.mk [some Ty.Bool]).intern Ty.I8).2.lookup
          ((Interner.mk [some Ty.Bool]).intern Ty.I8).1 = some Ty.I8 ∧
      ((Interner.mk [some Ty.Bool]).intern Ty.I8).2.lookup ⟨0⟩ =
        some Ty.Bool := by
  have h := intern_roundtrip_immutable ⟨[some Ty.Bool]⟩ Ty.I8 ⟨0⟩ Ty.Bool rfl
  exact ⟨rfl, h.1, h.2.1⟩

/-- C6: two-phase self-referential construction: after `reserve()` returns
a fresh handle `h0`, interning `Array{elem: h0, len: 1}` and finalizing
`h0` with a Struct whose field is of that array type succeeds; afterwards
`lookup(h0)` returns that Struct, whose field type resolves to the Array
over `h0` itself, and the finalized handle is immutable under further
interning. -/
theorem two_phase_self_reference (s : Interner) (name fname : SmolStr)
    (sp : Span) (m : ModuleId) :
    let h0 := (s.reserve).1
    let s1 := (s.reserve).2
    let aid := (s1.intern (Ty.Array ⟨h0, 1⟩)).1
    let s2 := (s1.intern (Ty.Array ⟨h0, 1⟩)).2
    let v := Ty.Struct ⟨name, [(fname, aid)], sp, m⟩
    ∃ t : Interner, s2.finalize h0 v = some t
      ∧ t.lookup h0 = some v
      ∧ t.lookup aid = some (Ty.Array ⟨h0, 1⟩)
      ∧ ∀ w : Ty, ((t.intern w).2).lookup h0 = some v := by
  intro h0 s1 aid s2 v
  have hres : s1.entries[h0.idx]? = some none := reserve_entry s
  have hres2 : s2.entries[h0.idx]? = some none :=
    entries_mono_intern (Ty.Array ⟨h0, 1⟩) hres
  have hfin := finalize_eq_of_entry v hres2
  refine ⟨⟨s2.entries.set h0.idx (some v)⟩, hfin,
    lookup_finalize_self hfin,
    lookup_finalize_other hfin (lookup_intern_self s1 (Ty.Array ⟨h0, 1⟩)),
    fun w => lookup_mono_intern w (lookup_finalize_self hfin)⟩

/-- C7: Map equality is purely structural over its two constituent TypeIds
and order-sensitive between key and value: interning `Map{key, value}`
twice returns the same handle both times, while interning the swapped
`Map{value, key}` returns a handle different from the first, whenever the
key handle resolves to Address and the value handle to I256. -/
theorem map_structural_order_sensitive (s : Interner) (k v : TypeId)
    (hk : s.lookup k = some Ty.Address) (hv : s.lookup v = some Ty.I256) :
    ((internBoth s (Ty.Map ⟨k, v⟩) (Ty.Map ⟨k, v⟩)).1 =
        (internBoth s (Ty.Map ⟨k, v⟩) (Ty.Map ⟨k, v⟩)).2)
    ∧ ((internBoth s (Ty.Map ⟨k, v⟩) (Ty.Map ⟨v, k⟩)).1 ≠
        (internBoth s (Ty.Map ⟨k, v⟩) (Ty.Map ⟨v, k⟩)).2)
    ∧ (∀ a b : MapDef,
        Ty.Map a = Ty.Map b ↔ a.key_ty = b.key_ty ∧ a.value_ty = b.value_ty) := by
  have hkv : k ≠ v := by
    intro h
    rw [h, hv] at hk
    simp at hk
  have hne : Ty.Map ⟨k, v⟩ ≠ Ty.Map ⟨v, k⟩ := by
    intro h
    exact hkv (congrArg MapDef.key_ty (Ty.Map.inj h))
  exact ⟨internBoth_self s (Ty.Map ⟨k, v⟩), internBoth_ne hne, map_eq_iff⟩

/-- C7 witness: with Address at handle 0 and I256 at handle 1, interning
`Map 0 1` twice unifies while the swapped `Map 1 0` gets a new handle. -/
theorem map_structural_order_sensitive_witness :
    ((internBoth ⟨[some Ty.Address, some Ty.I256]⟩ (Ty.Map ⟨⟨0⟩, ⟨1⟩⟩)
        (Ty.Map ⟨⟨0⟩, ⟨1⟩⟩)).1 =
      (internBoth ⟨[some Ty.Address, some Ty.I256]⟩ (Ty.Map ⟨⟨0⟩, ⟨1⟩⟩)
        (Ty.Map ⟨⟨0⟩, ⟨1⟩⟩)).2)
    ∧ ((internBoth ⟨[some Ty.Address, some Ty.I256]⟩ (Ty.Map ⟨⟨0⟩, ⟨1⟩⟩)
        (Ty.Map ⟨⟨1⟩, ⟨0⟩⟩)).1 ≠
      (internBoth ⟨[some Ty.Address, some Ty.I256]⟩ (Ty.Map ⟨⟨0⟩, ⟨1⟩⟩)
        (Ty.Map ⟨⟨1⟩, ⟨0⟩⟩)).2) := by
  have h := map_structural_order_sensitive ⟨[some Ty.Address, some Ty.I256]⟩
    ⟨0⟩ ⟨1⟩ rfl rfl
  exact ⟨h.1, h.2.1⟩

/-- C8: the array length participates in Array equality: for one element
handle and two distinct lengths, the two Array values are unequal and
intern to distinct handles. -/
theorem array_len_distinct (s : Interner) (e : TypeId) (n m : Nat)
    (h : n ≠ m) :
    Ty.Array ⟨e, n⟩ ≠ Ty.Array ⟨e, m⟩
    ∧ (internBoth s (Ty.Array ⟨e, n⟩) (Ty.Array ⟨e, m⟩)).1 ≠
        (internBoth s (Ty.Array ⟨e, n⟩) (Ty.Array ⟨e, m⟩)).2 := by
  have hne : Ty.Array ⟨e, n⟩ ≠ Ty.Array ⟨e, m⟩ := by
    intro hq
    exact h (congrArg ArrayDef.len (Ty.Array.inj hq))
  exact ⟨hne, internBoth_ne hne⟩

/-- C8 witness: `Array{elem: handle 0, len: 4}` versus
`Array{elem: handle 0, len: 5}` in the store holding `I32` at handle 0. -/
theorem array_len_distinct_witness :
    Ty.Array ⟨⟨0⟩, 4⟩ ≠ Ty.Array ⟨⟨0⟩, 5⟩
    ∧ (internBoth ⟨[some Ty.I32]⟩ (Ty.Array ⟨⟨0⟩, 4⟩) (Ty.Array ⟨⟨0⟩, 5⟩)).1 ≠
        (internBoth ⟨[some Ty.I32]⟩ (Ty.Array ⟨⟨0⟩, 4⟩) (Ty.Array ⟨⟨0⟩, 5⟩)).2 :=
  array_len_distinct ⟨[some Ty.I32]⟩ ⟨0⟩ 4 5 (by decide)

/-- C9: hashing is consistent with structural equality: equal Type values
(per the derived equality, including nominal metadata and nested handle
identity) have equal hashes — the property the interner's value-to-handle
table relies on for deduplication. -/
theorem hash_consistent_with_eq (u v : Ty) (h : u = v) :
    hashTy u = hashTy v := by
  rw [h]

/-- C9 witness: a concrete instance of hash consistency. -/
theorem hash_consistent_with_eq_witness :
    hashTy (Ty.Array ⟨⟨0⟩, 4⟩) = hashTy (Ty.Array ⟨⟨0⟩, 4⟩) :=
  hash_consistent_with_eq (Ty.Array ⟨⟨0⟩, 4⟩) (Ty.Array ⟨⟨0⟩, 4⟩) rfl

/-- C10: the `indexed` flag on Event fields participates in equality: two
Event values identical in name, span, module_id, field names and field
types but differing in the indexed boolean of at least one field are
unequal Type values and intern to distinct TypeIds. -/
theorem event_indexed_distinct (e1 e2 : EventDef)
    (_hn : e1.name = e2.name) (_hs : e1.span = e2.span)
    (_hm : e1.module_id = e2.module_id)
    (_hfn : e1.fields.map (fun f => f.1) = e2.fields.map (fun f => f.1))
    (_hft : e1.fields.map (fun f => f.2.1) = e2.fields.map (fun f => f.2.1))
    (hfi : e1.fields.map (fun f => f.2.2) ≠ e2.fields.map (fun f => f.2.2)) :
    Ty.Event e1 ≠ Ty.Event e2
    ∧ ∀ s : Interner,
        (internBoth s (Ty.Event e1) (Ty.Event e2)).1 ≠
          (internBoth s (Ty.Event e1) (Ty.Event e2)).2 := by
  have hne : Ty.Event e1 ≠ Ty.Event e2 := by
    intro h
    exact hfi (by rw [Ty.Event.inj h])
  exact ⟨hne, fun s => internBoth_ne hne⟩

/-- C10 witness: two `Transfer` events identical except that the single
field is indexed in one and not in the other. -/
theorem event_indexed_distinct_witness :
    Ty.Event ⟨"Transfer", [("amount", ⟨0⟩, true)], 0, 0⟩ ≠
        Ty.Event ⟨"Transfer", [("amount", ⟨0⟩, false)], 0, 0⟩
    ∧ (internBoth ⟨[some Ty.U256]⟩
          (Ty.Event ⟨"Transfer", [("amount", ⟨0⟩, true)], 0, 0⟩)
          (Ty.Event ⟨"Transfer", [("amount", ⟨0⟩, false)], 0, 0⟩)).1 ≠
        (internBoth ⟨[some Ty.U256]⟩
          (Ty.Event ⟨"Transfer", [("amount", ⟨0⟩, true)], 0, 0⟩)
          (Ty.Event ⟨"Transfer", [("amount", ⟨0⟩, false)], 0, 0⟩)).2 := by
  have h := event_indexed_distinct
    ⟨"Transfer", [("amount", ⟨0⟩, true)], 0, 0⟩
    ⟨"Transfer", [("amount", ⟨0⟩, false)], 0, 0⟩
    rfl rfl rfl rfl rfl (by decide)
  exact ⟨h.1, h.2 ⟨[some Ty.U256]⟩⟩

end Mir
